import Mathlib
/-!
Shallow embedding of the Telco churn dashboard's core pipeline (src/app.py):
type coercion of the three designated numeric columns, the tenure binning
function, the widget-driven filter pipeline, the churn-rate KPI, the
yes/no binarization for the correlation view, and pairwise Pearson
correlation.  Cell values are strings, exact rationals (standing for the
floats of the code), or a missing marker (pandas NaN).  Tables are a column
header list together with row-major value lists.
-/

/-- A cell of the dataframe: a string, a number (ℚ models the code's floats),
or the missing marker (NaN). -/
inductive Value where
  | str : String → Value
  | num : ℚ → Value
  | missing : Value
deriving DecidableEq, Repr

/-- A dataframe: column names plus row-major cell lists. -/
structure Table where
  cols : List String
  rows : List (List Value)
deriving DecidableEq, Repr

/-- First index of a column name in the header, as in pandas column lookup. -/
def colIdx : List String → String → Option Nat
  | [], _ => none
  | c :: cs, d => if c = d then some 0 else (colIdx cs d).map (· + 1)

/-- Read a row's cell in a named column; absent columns and short rows read as
missing (all call sites in the code guard on column presence). -/
def getVal (cols : List String) (r : List Value) (c : String) : Value :=
  match colIdx cols c with
  | some i => r.getD i Value.missing
  | none => Value.missing

/-- Python `astype(str)` on a cell: strings unchanged, numbers printed, and
NaN printed as the string "nan". -/
def valueToStr : Value → String
  | Value.str s => s
  | Value.num q => toString q
  | Value.missing => "nan"

/-- One decimal digit. -/
def digitToNat (c : Char) : Option Nat :=
  if c.isDigit then some (c.toNat - 48) else none

/-- Value of a digit string; none if any character is not a digit. -/
def digitsVal (cs : List Char) : Option Nat :=
  cs.foldl
    (fun acc c =>
      match acc, digitToNat c with
      | some n, some d => some (n * 10 + d)
      | _, _ => none)
    (some 0)

/-- Decimal-literal parsing, modelling `pd.to_numeric` / Python `float` on the
dataset's numeric text: optional sign, integer part, optional fractional part.
Anything else fails to parse. -/
def parseRat (s : String) : Option ℚ :=
  let cs := s.toList
  let signed : Int × List Char :=
    match cs with
    | '-' :: r => (-1, r)
    | '+' :: r => (1, r)
    | _ => (1, cs)
  let body := signed.2
  let ip := body.takeWhile (fun c => c ≠ '.')
  let rest := body.dropWhile (fun c => c ≠ '.')
  match rest with
  | [] =>
    match ip with
    | [] => none
    | _ => (digitsVal ip).map (fun n => mkRat (signed.1 * (n : Int)) 1)
  | _ :: fp =>
    if ip = [] ∧ fp = [] then none
    else
      match digitsVal ip, digitsVal fp with
      | some n, some m =>
        some (mkRat (signed.1 * ((n * 10 ^ fp.length + m : Nat) : Int)) (10 ^ fp.length))
      | _, _ => none

/-- `replace(" ", np.nan)` on a cell: the blank-string placeholder becomes
missing, everything else is unchanged. -/
def blankToNa (v : Value) : Value :=
  if v = Value.str " " then Value.missing else v

/-- `pd.to_numeric(-, errors='coerce')` on a cell: numbers stay, parsable text
becomes a number, anything else (including missing) becomes missing. -/
def toNumericValue : Value → Value
  | Value.num q => Value.num q
  | Value.missing => Value.missing
  | Value.str s =>
    match parseRat s with
    | some q => Value.num q
    | none => Value.missing

/-- `astype(str)` on a cell, producing a string cell (NaN becomes "nan"). -/
def astypeStrVal (v : Value) : Value := Value.str (valueToStr v)

/-- Replace the value at one index of a row; out-of-range indices leave the
row unchanged. -/
def modifyAt : List Value → Nat → (Value → Value) → List Value
  | [], _, _ => []
  | v :: vs, 0, f => f v :: vs
  | v :: vs, n + 1, f => v :: modifyAt vs n f

/-- Apply a cell transform to one named column of the table (`df[c] = f(df[c])`);
a no-op when the column is absent. -/
def mapCol (t : Table) (c : String) (f : Value → Value) : Table :=
  match colIdx t.cols c with
  | none => t
  | some i => { cols := t.cols, rows := t.rows.map (fun r => modifyAt r i f) }

/-- `coerce_telco_types` of src/app.py: TotalCharges has the blank placeholder
replaced by missing then is parsed numerically, Churn is forced to text,
tenure and MonthlyCharges are parsed numerically.  Each step is guarded by
column presence (embedded in `mapCol`). -/
def coerce_telco_types (t : Table) : Table :=
  let t1 := mapCol t "TotalCharges" (fun v => toNumericValue (blankToNa v))
  let t2 := mapCol t1 "Churn" astypeStrVal
  let t3 := mapCol t2 "tenure" toNumericValue
  mapCol t3 "MonthlyCharges" toNumericValue

/-- `tenure_bin` of src/app.py on the coerced duration column (numbers or
missing): NaN maps to NaN, otherwise the first threshold test that succeeds
names the bin. -/
def tenure_bin : Option ℚ → Option String
  | none => none
  | some v =>
    some
      (if v < 6 then "0–6"
       else if v < 12 then "6–12"
       else if v < 24 then "12–24"
       else if v < 36 then "24–36"
       else if v < 48 then "36–48"
       else if v < 60 then "48–60"
       else "60+")

/-- The widget state read by the filter pipeline: one optional selection per
categorical multiselect (none when the column is absent so no widget exists)
and one optional closed interval per numeric slider. -/
structure FilterState where
  gender : Option (List String)
  contract : Option (List String)
  paymentMethod : Option (List String)
  internetService : Option (List String)
  partner : Option (List String)
  dependents : Option (List String)
  seniorCitizen : Option (List String)
  rngTenure : Option (ℚ × ℚ)
  rngMonthly : Option (ℚ × ℚ)
  rngTotal : Option (ℚ × ℚ)
deriving DecidableEq, Repr

/-- `apply_multiselect` of src/app.py: when a selection exists and the column
is present, keep the rows whose text-coerced value is among the selected
options (the successive reassignments of the global `fdf` are threaded here as
explicit table passing). -/
def apply_multiselect (t : Table) (col : String) (opts : Option (List String)) : Table :=
  match opts with
  | none => t
  | some l =>
    if col ∈ t.cols then
      { cols := t.cols,
        rows := t.rows.filter (fun r => l.contains (valueToStr (getVal t.cols r col))) }
    else t

/-- One numeric range filter block of src/app.py: when the slider exists and
the column is present, keep the rows whose value satisfies both inclusive
comparisons; a NaN cell satisfies neither. -/
def apply_range (t : Table) (col : String) (rng : Option (ℚ × ℚ)) : Table :=
  match rng with
  | none => t
  | some p =>
    if col ∈ t.cols then
      { cols := t.cols,
        rows := t.rows.filter (fun r =>
          match getVal t.cols r col with
          | Value.num q => decide (p.1 ≤ q) && decide (q ≤ p.2)
          | _ => false) }
    else t

/-- The full mask-composition pipeline of src/app.py in source order: the
seven categorical filters, then the three range filters, each reassigning the
running filtered table. -/
def filtered_table (t : Table) (s : FilterState) : Table :=
  apply_range
    (apply_range
      (apply_range
        (apply_multiselect
          (apply_multiselect
            (apply_multiselect
              (apply_multiselect
                (apply_multiselect
                  (apply_multiselect
                    (apply_multiselect t "gender" s.gender)
                    "Contract" s.contract)
                  "PaymentMethod" s.paymentMethod)
                "InternetService" s.internetService)
              "Partner" s.partner)
            "Dependents" s.dependents)
          "SeniorCitizen" s.seniorCitizen)
        "tenure" s.rngTenure)
      "MonthlyCharges" s.rngMonthly)
    "TotalCharges" s.rngTotal

/-- The condition a single categorical selection contributes for one row:
text-coerced membership when the widget exists and the column is present,
otherwise no restriction. -/
def catCond (cols : List String) (col : String) (opts : Option (List String))
    (r : List Value) : Bool :=
  match opts with
  | none => true
  | some l =>
    if col ∈ cols then l.contains (valueToStr (getVal cols r col)) else true

/-- The condition a single numeric slider contributes for one row: inclusive
interval membership of a numeric cell when the slider exists and the column is
present (missing cells fail), otherwise no restriction. -/
def rngCond (cols : List String) (col : String) (rng : Option (ℚ × ℚ))
    (r : List Value) : Bool :=
  match rng with
  | none => true
  | some p =>
    if col ∈ cols then
      match getVal cols r col with
      | Value.num q => decide (p.1 ≤ q) && decide (q ≤ p.2)
      | _ => false
    else true

/-- The conjunction of all ten per-filter conditions for one row. -/
def rowPred (cols : List String) (s : FilterState) (r : List Value) : Bool :=
  catCond cols "gender" s.gender r && catCond cols "Contract" s.contract r &&
  catCond cols "PaymentMethod" s.paymentMethod r &&
  catCond cols "InternetService" s.internetService r &&
  catCond cols "Partner" s.partner r && catCond cols "Dependents" s.dependents r &&
  catCond cols "SeniorCitizen" s.seniorCitizen r && rngCond cols "tenure" s.rngTenure r &&
  rngCond cols "MonthlyCharges" s.rngMonthly r && rngCond cols "TotalCharges" s.rngTotal r

/-- Lower-casing modelled over the character list (`str.lower()`); equals
`String.toLower` on the data the dashboard handles, in a form the kernel can
evaluate. -/
def strLower (s : String) : String :=
  String.mk (s.data.map Char.toLower)

/-- One row's contribution to the churn KPI: `astype(str).str.lower().eq("yes")`
on the Churn cell. -/
def isYesRow (cols : List String) (r : List Value) : Bool :=
  strLower (valueToStr (getVal cols r "Churn")) == "yes"

/-- `np.mean` of a boolean series: fraction of true entries. -/
def meanBool (bs : List Bool) : ℚ :=
  (bs.count true : ℚ) / (bs.length : ℚ)

/-- The churn-rate KPI of src/app.py:
`np.mean(fdf["Churn"].astype(str).str.lower().eq("yes")) * 100 if len(fdf) else 0.0`. -/
def churn_rate (t : Table) : ℚ :=
  if t.rows.length = 0 then 0 else meanBool (t.rows.map (isYesRow t.cols)) * 100

/-- Number of rows whose lower-cased text Churn value is "yes". -/
def yesCount (t : Table) : Nat :=
  (t.rows.filter (isYesRow t.cols)).length

/-- One categorical entry of a state is at most as permissive as another:
both widgets absent, or both present with the first selection a subset of the
second. -/
def catLEb : Option (List String) → Option (List String) → Bool
  | none, none => true
  | some l1, some l2 => l1.all (fun x => l2.contains x)
  | _, _ => false

/-- One numeric entry of a state is at most as wide as another: both sliders
absent, or both present with the first interval inside the second. -/
def rngLEb : Option (ℚ × ℚ) → Option (ℚ × ℚ) → Bool
  | none, none => true
  | some p1, some p2 => decide (p2.1 ≤ p1.1) && decide (p1.2 ≤ p2.2)
  | _, _ => false

/-- Pointwise comparison of filter states: every categorical selection of the
first is a subset of the corresponding one of the second and every interval is
nested; a state obtained by shrinking a single entry of another satisfies
this. -/
def stateStronger (s1 s2 : FilterState) : Bool :=
  catLEb s1.gender s2.gender && catLEb s1.contract s2.contract &&
  catLEb s1.paymentMethod s2.paymentMethod && catLEb s1.internetService s2.internetService &&
  catLEb s1.partner s2.partner && catLEb s1.dependents s2.dependents &&
  catLEb s1.seniorCitizen s2.seniorCitizen && rngLEb s1.rngTenure s2.rngTenure &&
  rngLEb s1.rngMonthly s2.rngMonthly && rngLEb s1.rngTotal s2.rngTotal

/-- The text-coerced distinct-value domain of a column, as the multiselect
widget enumerates it (`df[col].dropna().astype(str)`); used to state the
claim's "selection equals the full domain" exemption (set equality, so
duplicates and ordering are irrelevant). -/
def fullDomainTexts (t : Table) (c : String) : List String :=
  t.rows.filterMap (fun r =>
    match getVal t.cols r c with
    | Value.missing => none
    | v => some (valueToStr v))

/-- Set equality of two string lists. -/
def sameSet (l1 l2 : List String) : Bool :=
  l1.all (fun x => l2.contains x) && l2.all (fun x => l1.contains x)

/-- The categorical condition exactly as claim C1 words it: a selection equal
to the full domain of distinct values contributes no condition (restricts no
rows, missing-valued rows included); only non-full selections restrict, by
text-coerced membership; absent columns contribute nothing. -/
def claimCatCond (t : Table) (col : String) (opts : Option (List String))
    (r : List Value) : Bool :=
  match opts with
  | none => true
  | some l =>
    if col ∈ t.cols then
      if sameSet l (fullDomainTexts t col) then true
      else l.contains (valueToStr (getVal t.cols r col))
    else true

/-- The filtered table exactly as claim C1 describes it: rows satisfying the
conjunction of the claim's categorical conditions and the inclusive numeric
interval conditions. -/
def claim_filter_c1 (t : Table) (s : FilterState) : Table :=
  { cols := t.cols,
    rows := t.rows.filter (fun r =>
      claimCatCond t "gender" s.gender r && claimCatCond t "Contract" s.contract r &&
      claimCatCond t "PaymentMethod" s.paymentMethod r &&
      claimCatCond t "InternetService" s.internetService r &&
      claimCatCond t "Partner" s.partner r && claimCatCond t "Dependents" s.dependents r &&
      claimCatCond t "SeniorCitizen" s.seniorCitizen r &&
      rngCond t.cols "tenure" s.rngTenure r &&
      rngCond t.cols "MonthlyCharges" s.rngMonthly r &&
      rngCond t.cols "TotalCharges" s.rngTotal r) }

/-- A cell that parsing can produce: a number or missing, never a string. -/
def isNumOrMissing : Value → Bool
  | Value.str _ => false
  | _ => true

/-- All cells of a named column, in row order (`df[col]`). -/
def colVals (t : Table) (c : String) : List Value :=
  t.rows.map (fun r => getVal t.cols r c)

/-- The numeric cells of a column, missing entries skipped — the values every
pandas numeric aggregate (mean, correlation) actually consumes. -/
def numVals (t : Table) (c : String) : List ℚ :=
  (colVals t c).filterMap (fun v =>
    match v with
    | Value.num q => some q
    | _ => none)

/-- `df[col].mean()`: the mean over non-missing entries. -/
def colMean (t : Table) (c : String) : ℚ :=
  (numVals t c).sum / ((numVals t c).length : ℚ)

/-- The pairwise-complete observations of two columns: rows where both cells
are numeric, as pandas correlation consumes them. -/
def pairedVals (t : Table) (a b : String) : List (ℚ × ℚ) :=
  t.rows.filterMap (fun r =>
    match getVal t.cols r a, getVal t.cols r b with
    | Value.num x, Value.num y => some (x, y)
    | _, _ => none)

/-- The default bounds of a numeric slider: (min, max) over the column's
non-missing values (`float(np.nanmin(df[col])), float(np.nanmax(df[col]))`);
no slider when the column has no numeric values. -/
def rng_default (t : Table) (c : String) : Option (ℚ × ℚ) :=
  match numVals t c with
  | [] => none
  | q :: qs => some (qs.foldl min q, qs.foldl max q)

/-- A column has pandas object (text) dtype in the model: some cell of it is
a string. -/
def isTextCol (t : Table) (c : String) : Bool :=
  (colVals t c).any (fun v =>
    match v with
    | Value.str _ => true
    | _ => false)

/-- `df[col].dropna()`: the non-missing cells of a column. -/
def nonMissingVals (t : Table) (c : String) : List Value :=
  (colVals t c).filter (fun v => v ≠ Value.missing)

/-- The binarization test of the correlation tab:
`set(map(str.lower, map(str, vals))) <= {"yes","no"}` over the column's
non-missing values. -/
def binarizable (t : Table) (c : String) : Bool :=
  (nonMissingVals t c).all (fun v =>
    strLower (valueToStr v) == "yes" || strLower (valueToStr v) == "no")

/-- `astype(str).str.lower().map({"yes":1, "no":0})` on one cell: "yes" to 1,
"no" to 0, anything else (the text "nan" of a missing cell included) to
missing. -/
def mapYesNo (v : Value) : Value :=
  if strLower (valueToStr v) = "yes" then Value.num 1
  else if strLower (valueToStr v) = "no" then Value.num 0
  else Value.missing

/-- One iteration of the binarization loop: binarize the column when it is an
object column whose non-missing values all lower-case to "yes"/"no". -/
def binStep (acc : Table) (c : String) : Table :=
  if isTextCol acc c && binarizable acc c then mapCol acc c mapYesNo else acc

/-- The correlation tab's `num_df` before dtype selection: the loop
`for col in num_df.columns: ...` over the filtered table's columns. -/
def num_df (t : Table) : Table := t.cols.foldl binStep t

/-- `select_dtypes(include=[np.number])`: the columns kept for the
correlation matrix — those without any string cell. -/
def corrCols (t : Table) : List String :=
  t.cols.filter (fun c => !(isTextCol t c))

/-- Mean of a list of rationals (`sum / count`). -/
def lmean (l : List ℚ) : ℚ := l.sum / (l.length : ℚ)

/-- Centered sum of squares of a sample — the unnormalized variance pandas
correlation divides by (via the standard deviations). -/
def svar (xs : List ℚ) : ℚ :=
  (xs.map (fun x => (x - lmean xs) ^ 2)).sum

/-- Centered sum of cross products of a paired sample — the unnormalized
covariance in pandas correlation. -/
def sxy (ps : List (ℚ × ℚ)) : ℚ :=
  (ps.map (fun p =>
    (p.1 - lmean (ps.map Prod.fst)) * (p.2 - lmean (ps.map Prod.snd)))).sum

/-- Pearson correlation of two columns as `DataFrame.corr` computes it:
pairwise-complete observations, covariance over the product of standard
deviations.  A zero denominator (no pairs, or a constant column) is pandas
NaN, modelled as `none`.  The square root forces the real number field here —
the one place the embedding leaves exact rationals, mirroring the code's
floating point. -/
noncomputable def corr (t : Table) (a b : String) : Option ℝ :=
  let ps := pairedVals t a b
  let sx := svar (ps.map Prod.fst)
  let sy := svar (ps.map Prod.snd)
  if sx * sy = 0 then none
  else some ((sxy ps : ℝ) / Real.sqrt ((sx * sy : ℚ) : ℝ))

theorem apply_multiselect_eq (t : Table) (col : String) (opts : Option (List String)) :
    apply_multiselect t col opts =
      { cols := t.cols, rows := t.rows.filter (catCond t.cols col opts) } := by
  cases opts with
  | none =>
    have h : catCond t.cols col none = fun _ => true := rfl
    simp [apply_multiselect, h]
  | some l =>
    by_cases h : col ∈ t.cols
    · have hc : catCond t.cols col (some l) =
          fun r => l.contains (valueToStr (getVal t.cols r col)) := by
        funext r; simp [catCond, h]
      simp [apply_multiselect, h, hc]
    · have hc : catCond t.cols col (some l) = fun _ => true := by
        funext r; simp [catCond, h]
      simp [apply_multiselect, h, hc]

theorem apply_range_eq (t : Table) (col : String) (rng : Option (ℚ × ℚ)) :
    apply_range t col rng =
      { cols := t.cols, rows := t.rows.filter (rngCond t.cols col rng) } := by
  cases rng with
  | none =>
    have h : rngCond t.cols col none = fun _ => true := rfl
    simp [apply_range, h]
  | some p =>
    by_cases h : col ∈ t.cols
    · have hc : rngCond t.cols col (some p) =
          fun r =>
            match getVal t.cols r col with
            | Value.num q => decide (p.1 ≤ q) && decide (q ≤ p.2)
            | _ => false := by
        funext r; simp [rngCond, h]
      simp [apply_range, h, hc]
    · have hc : rngCond t.cols col (some p) = fun _ => true := by
        funext r; simp [rngCond, h]
      simp [apply_range, h, hc]

theorem filtered_table_eq (t : Table) (s : FilterState) :
    filtered_table t s = { cols := t.cols, rows := t.rows.filter (rowPred t.cols s) } := by
  simp only [filtered_table, apply_multiselect_eq, apply_range_eq, List.filter_filter]
  congr 1
  refine List.filter_congr ?_
  intro r _
  simp only [rowPred]
  cases catCond t.cols "gender" s.gender r <;>
    cases catCond t.cols "Contract" s.contract r <;>
      cases catCond t.cols "PaymentMethod" s.paymentMethod r <;>
        cases catCond t.cols "InternetService" s.internetService r <;>
          cases catCond t.cols "Partner" s.partner r <;>
            cases catCond t.cols "Dependents" s.dependents r <;>
              cases catCond t.cols "SeniorCitizen" s.seniorCitizen r <;>
                cases rngCond t.cols "tenure" s.rngTenure r <;>
                  cases rngCond t.cols "MonthlyCharges" s.rngMonthly r <;>
                    cases rngCond t.cols "TotalCharges" s.rngTotal r <;>
                      rfl

/-- C3: tenure_bin maps each half-open bin (lower bound inclusive) to its
label — [0,6) to "0–6", [6,12) to "6–12", [12,24) to "12–24", [24,36) to
"24–36", [36,48) to "36–48", [48,60) to "48–60", [60,∞) to "60+" — and maps
a missing input to missing. -/
theorem c3_tenure_bin_ranges (x : ℚ) :
    (0 ≤ x → x < 6 → tenure_bin (some x) = some "0–6") ∧
    (6 ≤ x → x < 12 → tenure_bin (some x) = some "6–12") ∧
    (12 ≤ x → x < 24 → tenure_bin (some x) = some "12–24") ∧
    (24 ≤ x → x < 36 → tenure_bin (some x) = some "24–36") ∧
    (36 ≤ x → x < 48 → tenure_bin (some x) = some "36–48") ∧
    (48 ≤ x → x < 60 → tenure_bin (some x) = some "48–60") ∧
    (60 ≤ x → tenure_bin (some x) = some "60+") ∧
    tenure_bin none = none := by
  refine ⟨?_, ?_, ?_, ?_, ?_, ?_, ?_, rfl⟩
  · intro _ h2
    simp only [tenure_bin, if_pos h2]
  · intro h1 h2
    simp only [tenure_bin, if_neg (not_lt.mpr (by linarith : (6 : ℚ) ≤ x)), if_pos h2]
  · intro h1 h2
    simp only [tenure_bin, if_neg (not_lt.mpr (by linarith : (6 : ℚ) ≤ x)),
      if_neg (not_lt.mpr (by linarith : (12 : ℚ) ≤ x)), if_pos h2]
  · intro h1 h2
    simp only [tenure_bin, if_neg (not_lt.mpr (by linarith : (6 : ℚ) ≤ x)),
      if_neg (not_lt.mpr (by linarith : (12 : ℚ) ≤ x)),
      if_neg (not_lt.mpr (by linarith : (24 : ℚ) ≤ x)), if_pos h2]
  · intro h1 h2
    simp only [tenure_bin, if_neg (not_lt.mpr (by linarith : (6 : ℚ) ≤ x)),
      if_neg (not_lt.mpr (by linarith : (12 : ℚ) ≤ x)),
      if_neg (not_lt.mpr (by linarith : (24 : ℚ) ≤ x)),
      if_neg (not_lt.mpr (by linarith : (36 : ℚ) ≤ x)), if_pos h2]
  · intro h1 h2
    simp only [tenure_bin, if_neg (not_lt.mpr (by linarith : (6 : ℚ) ≤ x)),
      if_neg (not_lt.mpr (by linarith : (12 : ℚ) ≤ x)),
      if_neg (not_lt.mpr (by linarith : (24 : ℚ) ≤ x)),
      if_neg (not_lt.mpr (by linarith : (36 : ℚ) ≤ x)),
      if_neg (not_lt.mpr (by linarith : (48 : ℚ) ≤ x)), if_pos h2]
  · intro h1
    simp only [tenure_bin, if_neg (not_lt.mpr (by linarith : (6 : ℚ) ≤ x)),
      if_neg (not_lt.mpr (by linarith : (12 : ℚ) ≤ x)),
      if_neg (not_lt.mpr (by linarith : (24 : ℚ) ≤ x)),
      if_neg (not_lt.mpr (by linarith : (36 : ℚ) ≤ x)),
      if_neg (not_lt.mpr (by linarith : (48 : ℚ) ≤ x)),
      if_neg (not_lt.mpr (by linarith : (60 : ℚ) ≤ x))]

/-- Witness for C3 at the boundary input 6: exactly 6 falls in "6–12", and a
missing input stays missing. -/
theorem c3_tenure_bin_ranges_witness :
    tenure_bin (some 6) = some "6–12" ∧ tenure_bin none = none :=
  ⟨(c3_tenure_bin_ranges 6).2.1 (by norm_num) (by norm_num),
   (c3_tenure_bin_ranges 6).2.2.2.2.2.2.2⟩

/-- C10: every non-missing input strictly below 6 — negative inputs
included — lands in the "0–6" bin, and tenure_bin never returns missing on a
non-missing numeric input. -/
theorem c10_tenure_bin_below_six (x : ℚ) :
    (x < 6 → tenure_bin (some x) = some "0–6") ∧ tenure_bin (some x) ≠ none := by
  constructor
  · intro h
    simp only [tenure_bin, if_pos h]
  · simp [tenure_bin]

/-- Witness for C10 at the negative input -5. -/
theorem c10_tenure_bin_below_six_witness :
    tenure_bin (some (-5)) = some "0–6" ∧ tenure_bin (some (-5)) ≠ none :=
  ⟨(c10_tenure_bin_below_six (-5)).1 (by norm_num), (c10_tenure_bin_below_six (-5)).2⟩

/-- C4: the churn rate of an empty filtered table is exactly 0 (no division
by zero), and on a non-empty table it is the fraction of rows whose
lower-cased text Churn value is "yes", times 100. -/
theorem c4_churn_rate_safe (t : Table) :
    (t.rows.length = 0 → churn_rate t = 0) ∧
    (t.rows.length ≠ 0 →
      churn_rate t = (yesCount t : ℚ) / (t.rows.length : ℚ) * 100) := by
  constructor
  · intro h
    simp [churn_rate, h]
  · intro h
    have hcount : (t.rows.map (isYesRow t.cols)).count true =
        (t.rows.filter (isYesRow t.cols)).length := by
      rw [List.count_eq_countP, List.countP_map, ← List.countP_eq_length_filter]
      refine List.countP_congr ?_
      intro r _
      simp [Function.comp]
    simp only [churn_rate, if_neg h, meanBool, yesCount, hcount, List.length_map]

/-- Witness for C4: an empty table yields rate 0, and a two-row table with
one "Yes" yields 1/2 × 100. -/
theorem c4_churn_rate_safe_witness :
    churn_rate { cols := ["Churn"], rows := [] } = 0 ∧
    churn_rate { cols := ["Churn"], rows := [[Value.str "Yes"], [Value.str "No"]] } =
      (1 : ℚ) / 2 * 100 := by
  constructor
  · exact (c4_churn_rate_safe { cols := ["Churn"], rows := [] }).1 (by decide)
  · have h := (c4_churn_rate_safe
      { cols := ["Churn"], rows := [[Value.str "Yes"], [Value.str "No"]] }).2 (by decide)
    have hy : yesCount { cols := ["Churn"], rows := [[Value.str "Yes"], [Value.str "No"]] } = 1 := by
      decide
    rw [h, hy]
    norm_num

theorem filter_length_mono {α : Type} {p q : α → Bool} (h : ∀ a, p a = true → q a = true)
    (l : List α) : (l.filter p).length ≤ (l.filter q).length := by
  induction l with
  | nil => simp
  | cons a l ih =>
    cases hp : p a with
    | true =>
      have hq := h a hp
      rw [List.filter_cons, List.filter_cons, hp, hq, if_pos rfl, if_pos rfl]
      exact Nat.succ_le_succ ih
    | false =>
      cases hq : q a with
      | true =>
        rw [List.filter_cons, List.filter_cons, hp, hq, if_pos rfl, if_neg (by simp)]
        exact Nat.le_succ_of_le ih
      | false =>
        rw [List.filter_cons, List.filter_cons, hp, hq, if_neg (by simp), if_neg (by simp)]
        exact ih

theorem filter_idem {α : Type} (p : α → Bool) (l : List α) :
    (l.filter p).filter p = l.filter p := by
  induction l with
  | nil => rfl
  | cons a l ih =>
    cases hp : p a with
    | true => simp [List.filter_cons, hp, ih]
    | false => simp [List.filter_cons, hp, ih]

theorem catCond_mono (cols : List String) (col : String) {a b : Option (List String)}
    (hab : catLEb a b = true) (r : List Value)
    (h : catCond cols col a r = true) : catCond cols col b r = true := by
  cases a with
  | none =>
    cases b with
    | none => rfl
    | some l2 => simp [catLEb] at hab
  | some l1 =>
    cases b with
    | none => simp [catLEb] at hab
    | some l2 =>
      simp only [catLEb, List.all_eq_true] at hab
      simp only [catCond] at h ⊢
      by_cases hc : col ∈ cols
      · rw [if_pos hc] at h ⊢
        have hmem : valueToStr (getVal cols r col) ∈ l1 := by
          simpa using h
        simpa using hab _ hmem
      · rw [if_neg hc]

theorem rngCond_mono (cols : List String) (col : String) {a b : Option (ℚ × ℚ)}
    (hab : rngLEb a b = true) (r : List Value)
    (h : rngCond cols col a r = true) : rngCond cols col b r = true := by
  cases a with
  | none =>
    cases b with
    | none => rfl
    | some p2 => simp [rngLEb] at hab
  | some p1 =>
    cases b with
    | none => simp [rngLEb] at hab
    | some p2 =>
      simp only [rngLEb, Bool.and_eq_true, decide_eq_true_eq] at hab
      simp only [rngCond] at h ⊢
      by_cases hc : col ∈ cols
      · rw [if_pos hc] at h ⊢
        cases hv : getVal cols r col with
        | num q =>
          rw [hv] at h
          simp only [Bool.and_eq_true, decide_eq_true_eq] at h
          simp only [Bool.and_eq_true, decide_eq_true_eq]
          exact ⟨le_trans hab.1 h.1, le_trans h.2 hab.2⟩
        | str s => rw [hv] at h; exact absurd h (by simp)
        | missing => rw [hv] at h; exact absurd h (by simp)
      · rw [if_neg hc]

theorem rowPred_mono (cols : List String) {s1 s2 : FilterState}
    (hs : stateStronger s1 s2 = true) (r : List Value)
    (h : rowPred cols s1 r = true) : rowPred cols s2 r = true := by
  simp only [stateStronger, Bool.and_eq_true] at hs
  simp only [rowPred, Bool.and_eq_true] at h ⊢
  obtain ⟨⟨⟨⟨⟨⟨⟨⟨⟨h1, h2⟩, h3⟩, h4⟩, h5⟩, h6⟩, h7⟩, h8⟩, h9⟩, h10⟩ := h
  obtain ⟨⟨⟨⟨⟨⟨⟨⟨⟨g1, g2⟩, g3⟩, g4⟩, g5⟩, g6⟩, g7⟩, g8⟩, g9⟩, g10⟩ := hs
  exact ⟨⟨⟨⟨⟨⟨⟨⟨⟨catCond_mono cols _ g1 r h1, catCond_mono cols _ g2 r h2⟩,
    catCond_mono cols _ g3 r h3⟩, catCond_mono cols _ g4 r h4⟩,
    catCond_mono cols _ g5 r h5⟩, catCond_mono cols _ g6 r h6⟩,
    catCond_mono cols _ g7 r h7⟩, rngCond_mono cols _ g8 r h8⟩,
    rngCond_mono cols _ g9 r h9⟩, rngCond_mono cols _ g10 r h10⟩

/-- C5: filtering is monotone in the selection state — if every categorical
selection of `s1` is a subset of that of `s2` and every numeric interval of
`s1` is nested in that of `s2` (in particular when the two states differ in
a single shrunk or narrowed entry), the filtered row count under `s1` is at
most the one under `s2`. -/
theorem c5_filter_monotone (t : Table) (s1 s2 : FilterState)
    (hs : stateStronger s1 s2 = true) :
    (filtered_table t s1).rows.length ≤ (filtered_table t s2).rows.length := by
  rw [filtered_table_eq, filtered_table_eq]
  exact filter_length_mono (fun r => rowPred_mono t.cols hs r) t.rows

/-- Witness for C5: shrinking the gender selection from both values to one on
a concrete two-row table does not increase the filtered row count. -/
theorem c5_filter_monotone_witness :
    stateStronger
        { gender := some ["F"], contract := none, paymentMethod := none,
          internetService := none, partner := none, dependents := none,
          seniorCitizen := none, rngTenure := none, rngMonthly := none, rngTotal := none }
        { gender := some ["F", "M"], contract := none, paymentMethod := none,
          internetService := none, partner := none, dependents := none,
          seniorCitizen := none, rngTenure := none, rngMonthly := none, rngTotal := none } = true ∧
      (filtered_table { cols := ["gender"], rows := [[Value.str "F"], [Value.str "M"]] }
          { gender := some ["F"], contract := none, paymentMethod := none,
            internetService := none, partner := none, dependents := none,
            seniorCitizen := none, rngTenure := none, rngMonthly := none,
            rngTotal := none }).rows.length ≤
        (filtered_table { cols := ["gender"], rows := [[Value.str "F"], [Value.str "M"]] }
          { gender := some ["F", "M"], contract := none, paymentMethod := none,
            internetService := none, partner := none, dependents := none,
            seniorCitizen := none, rngTenure := none, rngMonthly := none,
            rngTotal := none }).rows.length :=
  ⟨by decide, c5_filter_monotone _ _ _ (by decide)⟩

/-- C6: mask composition is idempotent and deterministic — re-running the
whole filter pipeline with an unchanged selection state on its own output
returns the identical table (same rows, same order, same values). -/
theorem c6_filter_idempotent (t : Table) (s : FilterState) :
    filtered_table (filtered_table t s) s = filtered_table t s := by
  rw [filtered_table_eq t s, filtered_table_eq
    { cols := t.cols, rows := t.rows.filter (rowPred t.cols s) } s]
  simp only
  rw [filter_idem]

/-- Counterexample to C1: a table with one "F" row and one missing-gender row,
under the default full-domain gender selection ["F"].  The claim predicts no
restriction (both rows kept), but the code's mask text-coerces the missing
value to "nan", which is not among the selected options, so the missing row
is dropped. -/
theorem c1_counterexample :
    filtered_table { cols := ["gender"], rows := [[Value.str "F"], [Value.missing]] }
        { gender := some ["F"], contract := none, paymentMethod := none,
          internetService := none, partner := none, dependents := none,
          seniorCitizen := none, rngTenure := none, rngMonthly := none, rngTotal := none } ≠
      claim_filter_c1 { cols := ["gender"], rows := [[Value.str "F"], [Value.missing]] }
        { gender := some ["F"], contract := none, paymentMethod := none,
          internetService := none, partner := none, dependents := none,
          seniorCitizen := none, rngTenure := none, rngMonthly := none, rngTotal := none } := by
  decide

/-- C1 as amended: the filtered table keeps exactly the rows satisfying the
conjunction of the active conditions, where every categorical filter with a
present column contributes the text-coerced membership condition — also when
the selection equals the full domain, in which case rows with a missing value
in that column are still dropped — every numeric filter with a present column
contributes inclusive [low, high] membership (which missing values fail), and
a filter whose target column is absent contributes no condition. -/
theorem c1_mask_conjunction (t : Table) (s : FilterState) :
    filtered_table t s = { cols := t.cols, rows := t.rows.filter (rowPred t.cols s) } :=
  filtered_table_eq t s

theorem colIdx_getD {cols : List String} {c : String} {i : Nat}
    (h : colIdx cols c = some i) : cols.getD i "" = c := by
  induction cols generalizing i with
  | nil => simp [colIdx] at h
  | cons d cs ih =>
    simp only [colIdx] at h
    by_cases hd : d = c
    · rw [if_pos hd] at h
      cases h
      simpa using hd
    · rw [if_neg hd] at h
      cases hi : colIdx cs c with
      | none => rw [hi] at h; simp at h
      | some j =>
        rw [hi] at h
        have h2 : some (j + 1) = some i := h
        cases h2
        simpa using ih hi

theorem colIdx_inj {cols : List String} {c c' : String} {i : Nat}
    (h : colIdx cols c = some i) (h' : colIdx cols c' = some i) : c = c' := by
  rw [← colIdx_getD h, ← colIdx_getD h']

theorem getD_modifyAt (f : Value → Value) (r : List Value) (j i : Nat) :
    (modifyAt r j f).getD i Value.missing =
      if i = j ∧ j < r.length then f (r.getD j Value.missing)
      else r.getD i Value.missing := by
  induction r generalizing j i with
  | nil => simp [modifyAt]
  | cons v vs ih =>
    cases j with
    | zero =>
      cases i with
      | zero => simp [modifyAt]
      | succ k => simp [modifyAt]
    | succ j' =>
      cases i with
      | zero => simp [modifyAt]
      | succ k =>
        show (modifyAt vs j' f).getD k Value.missing = _
        rw [ih]
        simp only [List.getD_cons_succ, List.length_cons]
        by_cases h1 : k = j'
        · subst h1
          by_cases h2 : k < vs.length
          · rw [if_pos ⟨rfl, h2⟩, if_pos ⟨rfl, Nat.succ_lt_succ h2⟩]
          · rw [if_neg (fun hc => h2 hc.2), if_neg (fun hc => h2 (Nat.lt_of_succ_lt_succ hc.2))]
        · rw [if_neg (fun hc => h1 hc.1), if_neg (fun hc => h1 (Nat.succ_injective hc.1))]

theorem getVal_modifyAt_self {cols : List String} {c : String} {i : Nat}
    (h : colIdx cols c = some i) (f : Value → Value)
    (hf : f Value.missing = Value.missing) (r : List Value) :
    getVal cols (modifyAt r i f) c = f (getVal cols r c) := by
  simp only [getVal, h, getD_modifyAt]
  by_cases hlen : i < r.length
  · simp [hlen]
  · have hr : r[i]? = none := List.getElem?_eq_none (by omega)
    simp [hlen, hr, hf]

theorem getVal_modifyAt_other {cols : List String} {c c' : String} (hne : c' ≠ c)
    {i : Nat} (h : colIdx cols c = some i) (f : Value → Value) (r : List Value) :
    getVal cols (modifyAt r i f) c' = getVal cols r c' := by
  cases h' : colIdx cols c' with
  | none => simp [getVal, h']
  | some j =>
    have hij : ¬(j = i ∧ i < r.length) := by
      intro hc
      exact hne (colIdx_inj (hc.1 ▸ h') h)
    simp only [getVal, h']
    rw [getD_modifyAt, if_neg hij]

theorem mapCol_cols (t : Table) (c : String) (f : Value → Value) :
    (mapCol t c f).cols = t.cols := by
  unfold mapCol
  cases colIdx t.cols c <;> rfl

theorem mapCol_rows_length (t : Table) (c : String) (f : Value → Value) :
    (mapCol t c f).rows.length = t.rows.length := by
  unfold mapCol
  cases colIdx t.cols c <;> simp

theorem getVal_mapCol_getD_self (u : Table) (c : String) (f : Value → Value)
    (hf : f Value.missing = Value.missing) (i : Nat) :
    getVal u.cols ((mapCol u c f).rows.getD i []) c =
      f (getVal u.cols (u.rows.getD i []) c) := by
  unfold mapCol
  cases h : colIdx u.cols c with
  | none => simp [getVal, h, hf]
  | some j =>
    simp only
    cases hi : u.rows[i]? with
    | none =>
      have hm : (u.rows.map (fun r => modifyAt r j f))[i]? = none := by simp [hi]
      rw [List.getD_eq_getElem?_getD, hm, List.getD_eq_getElem?_getD, hi]
      simp [getVal, h, hf]
    | some r =>
      have hm : (u.rows.map (fun r => modifyAt r j f))[i]? = some (modifyAt r j f) := by
        simp [hi]
      rw [List.getD_eq_getElem?_getD, hm, List.getD_eq_getElem?_getD, hi]
      simp only [Option.getD_some]
      exact getVal_modifyAt_self h f hf r

theorem getVal_mapCol_getD_other (u : Table) {c c' : String} (hne : c' ≠ c)
    (f : Value → Value) (i : Nat) :
    getVal u.cols ((mapCol u c f).rows.getD i []) c' =
      getVal u.cols (u.rows.getD i []) c' := by
  unfold mapCol
  cases h : colIdx u.cols c with
  | none => rfl
  | some j =>
    simp only
    cases hi : u.rows[i]? with
    | none =>
      have hm : (u.rows.map (fun r => modifyAt r j f))[i]? = none := by simp [hi]
      rw [List.getD_eq_getElem?_getD, hm, List.getD_eq_getElem?_getD, hi]
    | some r =>
      have hm : (u.rows.map (fun r => modifyAt r j f))[i]? = some (modifyAt r j f) := by
        simp [hi]
      rw [List.getD_eq_getElem?_getD, hm, List.getD_eq_getElem?_getD, hi]
      simp only [Option.getD_some]
      exact getVal_modifyAt_other hne h f r

theorem getVal_mapCol_getD_self2 {u : Table} {CS : List String} (hu : u.cols = CS)
    (c : String) (f : Value → Value) (hf : f Value.missing = Value.missing) (i : Nat) :
    getVal CS ((mapCol u c f).rows.getD i []) c = f (getVal CS (u.rows.getD i []) c) := by
  subst hu
  exact getVal_mapCol_getD_self u c f hf i

theorem getVal_mapCol_getD_other2 {u : Table} {CS : List String} (hu : u.cols = CS)
    {c' : String} (c : String) (hne : c' ≠ c) (f : Value → Value) (i : Nat) :
    getVal CS ((mapCol u c f).rows.getD i []) c' = getVal CS (u.rows.getD i []) c' := by
  subst hu
  exact getVal_mapCol_getD_other u hne f i

theorem coerce_telco_types_cols (t : Table) : (coerce_telco_types t).cols = t.cols := by
  simp [coerce_telco_types, mapCol_cols]

theorem coerce_telco_types_rows_length (t : Table) :
    (coerce_telco_types t).rows.length = t.rows.length := by
  simp [coerce_telco_types, mapCol_rows_length]

theorem getVal_coerce_TotalCharges (t : Table) (i : Nat) :
    getVal t.cols ((coerce_telco_types t).rows.getD i []) "TotalCharges" =
      toNumericValue (blankToNa (getVal t.cols (t.rows.getD i []) "TotalCharges")) := by
  simp only [coerce_telco_types]
  rw [getVal_mapCol_getD_other2 (by simp [mapCol_cols]) "MonthlyCharges" (by decide)
      toNumericValue i]
  rw [getVal_mapCol_getD_other2 (by simp [mapCol_cols]) "tenure" (by decide) toNumericValue i]
  rw [getVal_mapCol_getD_other2 (by simp [mapCol_cols]) "Churn" (by decide) astypeStrVal i]
  rw [getVal_mapCol_getD_self2 rfl "TotalCharges" (fun v => toNumericValue (blankToNa v)) rfl i]

theorem getVal_coerce_tenure (t : Table) (i : Nat) :
    getVal t.cols ((coerce_telco_types t).rows.getD i []) "tenure" =
      toNumericValue (getVal t.cols (t.rows.getD i []) "tenure") := by
  simp only [coerce_telco_types]
  rw [getVal_mapCol_getD_other2 (by simp [mapCol_cols]) "MonthlyCharges" (by decide)
      toNumericValue i]
  rw [getVal_mapCol_getD_self2 (by simp [mapCol_cols]) "tenure" toNumericValue rfl i]
  rw [getVal_mapCol_getD_other2 (by simp [mapCol_cols]) "Churn" (by decide) astypeStrVal i]
  rw [getVal_mapCol_getD_other2 rfl "TotalCharges" (by decide)
      (fun v => toNumericValue (blankToNa v)) i]

theorem getVal_coerce_MonthlyCharges (t : Table) (i : Nat) :
    getVal t.cols ((coerce_telco_types t).rows.getD i []) "MonthlyCharges" =
      toNumericValue (getVal t.cols (t.rows.getD i []) "MonthlyCharges") := by
  simp only [coerce_telco_types]
  rw [getVal_mapCol_getD_self2 (by simp [mapCol_cols]) "MonthlyCharges" toNumericValue rfl i]
  rw [getVal_mapCol_getD_other2 (by simp [mapCol_cols]) "tenure" (by decide) toNumericValue i]
  rw [getVal_mapCol_getD_other2 (by simp [mapCol_cols]) "Churn" (by decide) astypeStrVal i]
  rw [getVal_mapCol_getD_other2 rfl "TotalCharges" (by decide)
      (fun v => toNumericValue (blankToNa v)) i]

theorem getVal_coerce_untouched (t : Table) (i : Nat) (c : String)
    (h1 : c ≠ "TotalCharges") (h2 : c ≠ "Churn") (h3 : c ≠ "tenure")
    (h4 : c ≠ "MonthlyCharges") :
    getVal t.cols ((coerce_telco_types t).rows.getD i []) c =
      getVal t.cols (t.rows.getD i []) c := by
  simp only [coerce_telco_types]
  rw [getVal_mapCol_getD_other2 (by simp [mapCol_cols]) "MonthlyCharges" h4 toNumericValue i]
  rw [getVal_mapCol_getD_other2 (by simp [mapCol_cols]) "tenure" h3 toNumericValue i]
  rw [getVal_mapCol_getD_other2 (by simp [mapCol_cols]) "Churn" h2 astypeStrVal i]
  rw [getVal_mapCol_getD_other2 rfl "TotalCharges" h1 (fun v => toNumericValue (blankToNa v)) i]

theorem isNumOrMissing_toNumericValue (v : Value) :
    isNumOrMissing (toNumericValue v) = true := by
  cases v with
  | num q => rfl
  | missing => rfl
  | str s =>
    simp only [toNumericValue]
    cases parseRat s <;> rfl

/-- C8: type coercion is total and effect-free — it produces a table with the
same columns and row count (the input table itself is untouched, the embedding
being purely functional like the code's `df.copy()` discipline); the
total-charge column is the blank-to-missing replacement followed by numeric
parsing (so a blank-string cell ends missing), every cell of the three
designated numeric columns ends as a number or missing (parse failures
degrade to missing, no error is signalled anywhere — the function is total),
and all other columns except the text-forced Churn are unchanged. -/
theorem c8_coercion_total (t : Table) :
    (coerce_telco_types t).cols = t.cols ∧
    (coerce_telco_types t).rows.length = t.rows.length ∧
    (∀ i, getVal t.cols ((coerce_telco_types t).rows.getD i []) "TotalCharges" =
        toNumericValue (blankToNa (getVal t.cols (t.rows.getD i []) "TotalCharges"))) ∧
    (∀ i, getVal t.cols (t.rows.getD i []) "TotalCharges" = Value.str " " →
        getVal t.cols ((coerce_telco_types t).rows.getD i []) "TotalCharges" = Value.missing) ∧
    (∀ i c, c = "TotalCharges" ∨ c = "tenure" ∨ c = "MonthlyCharges" →
        isNumOrMissing (getVal t.cols ((coerce_telco_types t).rows.getD i []) c) = true) ∧
    (∀ i c, ¬(c = "TotalCharges" ∨ c = "Churn" ∨ c = "tenure" ∨ c = "MonthlyCharges") →
        getVal t.cols ((coerce_telco_types t).rows.getD i []) c =
          getVal t.cols (t.rows.getD i []) c) := by
  refine ⟨coerce_telco_types_cols t, coerce_telco_types_rows_length t,
    getVal_coerce_TotalCharges t, ?_, ?_, ?_⟩
  · intro i h
    rw [getVal_coerce_TotalCharges t i, h]
    rfl
  · intro i c hc
    rcases hc with hc | hc | hc
    · subst hc
      rw [getVal_coerce_TotalCharges t i]
      exact isNumOrMissing_toNumericValue _
    · subst hc
      rw [getVal_coerce_tenure t i]
      exact isNumOrMissing_toNumericValue _
    · subst hc
      rw [getVal_coerce_MonthlyCharges t i]
      exact isNumOrMissing_toNumericValue _
  · intro i c hc
    push_neg at hc
    exact getVal_coerce_untouched t i c hc.1 hc.2.1 hc.2.2.1 hc.2.2.2

/-- Witness for C8 on a one-row table with a blank total charge: the blank
becomes missing, the coerced cell is numeric-or-missing, and the unrelated
column "x" is untouched. -/
theorem c8_coercion_total_witness :
    getVal ["TotalCharges", "Churn", "x"]
        ((coerce_telco_types
          { cols := ["TotalCharges", "Churn", "x"],
            rows := [[Value.str " ", Value.str "Yes", Value.str "k"]] }).rows.getD 0 [])
        "TotalCharges" = Value.missing ∧
    isNumOrMissing
        (getVal ["TotalCharges", "Churn", "x"]
          ((coerce_telco_types
            { cols := ["TotalCharges", "Churn", "x"],
              rows := [[Value.str " ", Value.str "Yes", Value.str "k"]] }).rows.getD 0 [])
          "TotalCharges") = true ∧
    getVal ["TotalCharges", "Churn", "x"]
        ((coerce_telco_types
          { cols := ["TotalCharges", "Churn", "x"],
            rows := [[Value.str " ", Value.str "Yes", Value.str "k"]] }).rows.getD 0 [])
        "x" = Value.str "k" := by
  refine ⟨(c8_coercion_total
      { cols := ["TotalCharges", "Churn", "x"],
        rows := [[Value.str " ", Value.str "Yes", Value.str "k"]] }).2.2.2.1 0 (by decide),
    (c8_coercion_total
      { cols := ["TotalCharges", "Churn", "x"],
        rows := [[Value.str " ", Value.str "Yes", Value.str "k"]] }).2.2.2.2.1 0
      "TotalCharges" (Or.inl rfl),
    ?_⟩
  have h := (c8_coercion_total
      { cols := ["TotalCharges", "Churn", "x"],
        rows := [[Value.str " ", Value.str "Yes", Value.str "k"]] }).2.2.2.2.2 0 "x"
      (by decide)
  rw [h]
  decide

/-- Counterexample to C2 at the table with tenure cells "abc" and "5": after
coercion the unparsable cell is missing, and under the default full-range
selection state (slider at the full range (5, 5), no other widgets since no
other column exists) the filtered table counts 1 row, not the 2 rows the
claim asserts — the missing tenure fails the slider's inclusive comparisons. -/
theorem c2_counterexample :
    getVal ["tenure"]
        ((coerce_telco_types
          { cols := ["tenure"], rows := [[Value.str "abc"], [Value.str "5"]] }).rows.getD 0 [])
        "tenure" = Value.missing ∧
    rng_default
        (coerce_telco_types
          { cols := ["tenure"], rows := [[Value.str "abc"], [Value.str "5"]] })
        "tenure" = some (5, 5) ∧
    (coerce_telco_types
        { cols := ["tenure"], rows := [[Value.str "abc"], [Value.str "5"]] }).rows.length = 2 ∧
    (filtered_table
        (coerce_telco_types
          { cols := ["tenure"], rows := [[Value.str "abc"], [Value.str "5"]] })
        { gender := none, contract := none, paymentMethod := none,
          internetService := none, partner := none, dependents := none,
          seniorCitizen := none,
          rngTenure := rng_default
            (coerce_telco_types
              { cols := ["tenure"], rows := [[Value.str "abc"], [Value.str "5"]] })
            "tenure",
          rngMonthly := none, rngTotal := none }).rows.length = 1 := by
  decide

theorem rngCond_mem_range {cols : List String} {c : String} {lo hi : ℚ} {r : List Value}
    (hmem : c ∈ cols) (h : rngCond cols c (some (lo, hi)) r = true) :
    ∃ q, getVal cols r c = Value.num q ∧ lo ≤ q ∧ q ≤ hi := by
  simp only [rngCond, if_pos hmem] at h
  cases hv : getVal cols r c with
  | num q =>
    rw [hv] at h
    simp only [Bool.and_eq_true, decide_eq_true_eq] at h
    exact ⟨q, rfl, h.1, h.2⟩
  | str a => rw [hv] at h; exact absurd h (by simp)
  | missing => rw [hv] at h; exact absurd h (by simp)

/-- C2 as amended: an unparsable cell of any designated numeric column
(tenure, MonthlyCharges or TotalCharges) becomes missing under coercion, a
missing cell contributes nothing to the column's numeric aggregates (its mean
inputs and its pairwise-complete correlation observations are unchanged by
such a row), but when any of the three columns' range sliders is present
every row of the Filtered Table — the default full-range state included —
carries a numeric value of that column inside the inclusive interval, so a
row whose coerced value is missing is *not* counted in the filtered row
count. -/
theorem c2_missing_numeric_amended :
    (∀ s, parseRat s = none → toNumericValue (Value.str s) = Value.missing) ∧
    (∀ (t : Table) (i : Nat) (c s : String),
      c = "tenure" ∨ c = "MonthlyCharges" ∨ c = "TotalCharges" →
      getVal t.cols (t.rows.getD i []) c = Value.str s → parseRat s = none →
      getVal t.cols ((coerce_telco_types t).rows.getD i []) c = Value.missing) ∧
    (∀ (cols : List String) (r : List Value) (rs : List (List Value)) (c : String),
      getVal cols r c = Value.missing →
        numVals { cols := cols, rows := r :: rs } c = numVals { cols := cols, rows := rs } c ∧
        colMean { cols := cols, rows := r :: rs } c = colMean { cols := cols, rows := rs } c) ∧
    (∀ (cols : List String) (r : List Value) (rs : List (List Value)) (a b : String),
      getVal cols r a = Value.missing →
        pairedVals { cols := cols, rows := r :: rs } a b =
          pairedVals { cols := cols, rows := rs } a b) ∧
    (∀ (t : Table) (st : FilterState) (lo hi : ℚ) (c : String),
      (c = "tenure" ∧ st.rngTenure = some (lo, hi)) ∨
      (c = "MonthlyCharges" ∧ st.rngMonthly = some (lo, hi)) ∨
      (c = "TotalCharges" ∧ st.rngTotal = some (lo, hi)) →
      c ∈ t.cols →
      ∀ r ∈ (filtered_table t st).rows,
        ∃ q, getVal t.cols r c = Value.num q ∧ lo ≤ q ∧ q ≤ hi) := by
  refine ⟨?_, ?_, ?_, ?_, ?_⟩
  · intro s h
    simp [toNumericValue, h]
  · intro t i c s hc hval hparse
    rcases hc with hc | hc | hc
    · subst hc
      rw [getVal_coerce_tenure t i, hval]
      simp [toNumericValue, hparse]
    · subst hc
      rw [getVal_coerce_MonthlyCharges t i, hval]
      simp [toNumericValue, hparse]
    · subst hc
      rw [getVal_coerce_TotalCharges t i, hval]
      unfold blankToNa
      split
      · rfl
      · simp [toNumericValue, hparse]
  · intro cols r rs c h
    have hnv : numVals { cols := cols, rows := r :: rs } c =
        numVals { cols := cols, rows := rs } c := by
      simp [numVals, colVals, h]
    exact ⟨hnv, by simp [colMean, hnv]⟩
  · intro cols r rs a b h
    simp [pairedVals, h]
  · intro t st lo hi c hc hmem r hr
    rw [filtered_table_eq] at hr
    simp only [List.mem_filter] at hr
    have hp := hr.2
    simp only [rowPred, Bool.and_eq_true] at hp
    obtain ⟨⟨⟨_, h8⟩, h9⟩, h10⟩ := hp
    rcases hc with ⟨hc, hrng⟩ | ⟨hc, hrng⟩ | ⟨hc, hrng⟩
    · subst hc
      rw [hrng] at h8
      exact rngCond_mem_range hmem h8
    · subst hc
      rw [hrng] at h9
      exact rngCond_mem_range hmem h9
    · subst hc
      rw [hrng] at h10
      exact rngCond_mem_range hmem h10

/-- Witness for C2's amended theorem: "abc" fails to parse; an "abc" cell of
the MonthlyCharges column coerces to missing; prepending a missing-tenure row
leaves the tenure mean inputs unchanged; a concrete filtered row under a
present MonthlyCharges slider carries an in-range numeric value. -/
theorem c2_missing_numeric_amended_witness :
    toNumericValue (Value.str "abc") = Value.missing ∧
    getVal ["MonthlyCharges"]
        ((coerce_telco_types
          { cols := ["MonthlyCharges"], rows := [[Value.str "abc"]] }).rows.getD 0 [])
        "MonthlyCharges" = Value.missing ∧
    numVals { cols := ["tenure"], rows := [[Value.missing], [Value.num 5]] } "tenure" =
      numVals { cols := ["tenure"], rows := [[Value.num 5]] } "tenure" ∧
    (∃ q, getVal ["MonthlyCharges"] [Value.num 3] "MonthlyCharges" = Value.num q ∧
      0 ≤ q ∧ q ≤ 10) := by
  refine ⟨c2_missing_numeric_amended.1 "abc" (by decide), ?_, ?_, ?_⟩
  · exact c2_missing_numeric_amended.2.1
      { cols := ["MonthlyCharges"], rows := [[Value.str "abc"]] } 0 "MonthlyCharges" "abc"
      (Or.inr (Or.inl rfl)) (by decide) (by decide)
  · exact (c2_missing_numeric_amended.2.2.1 ["tenure"] [Value.missing] [[Value.num 5]]
      "tenure" (by decide)).1
  · refine c2_missing_numeric_amended.2.2.2.2
      { cols := ["MonthlyCharges"], rows := [[Value.num 3]] }
      { gender := none, contract := none, paymentMethod := none,
        internetService := none, partner := none, dependents := none,
        seniorCitizen := none, rngTenure := none, rngMonthly := some (0, 10),
        rngTotal := none } 0 10 "MonthlyCharges"
      (Or.inr (Or.inl ⟨rfl, rfl⟩)) (by decide) [Value.num 3] ?_
    decide

theorem colVals_mapCol_self (u : Table) (c : String) (f : Value → Value)
    (hf : f Value.missing = Value.missing) :
    colVals (mapCol u c f) c = (colVals u c).map f := by
  unfold mapCol
  cases h : colIdx u.cols c with
  | none => simp [colVals, getVal, h, hf]
  | some i =>
    simp only [colVals, List.map_map]
    refine List.map_congr_left ?_
    intro r _
    exact getVal_modifyAt_self h f hf r

theorem colVals_mapCol_other (u : Table) {c c' : String} (hne : c' ≠ c)
    (f : Value → Value) :
    colVals (mapCol u c f) c' = colVals u c' := by
  unfold mapCol
  cases h : colIdx u.cols c with
  | none => rfl
  | some i =>
    simp only [colVals, List.map_map]
    refine List.map_congr_left ?_
    intro r _
    exact getVal_modifyAt_other hne h f r

theorem isTextCol_congr {t1 t2 : Table} {c : String}
    (h : colVals t1 c = colVals t2 c) : isTextCol t1 c = isTextCol t2 c := by
  simp [isTextCol, h]

theorem binarizable_congr {t1 t2 : Table} {c : String}
    (h : colVals t1 c = colVals t2 c) : binarizable t1 c = binarizable t2 c := by
  simp [binarizable, nonMissingVals, h]

theorem mapYesNo_missing : mapYesNo Value.missing = Value.missing := by decide

theorem binStep_cols (acc : Table) (c : String) : (binStep acc c).cols = acc.cols := by
  unfold binStep
  split
  · exact mapCol_cols acc c mapYesNo
  · rfl

theorem colVals_binStep_other {acc : Table} {c d : String} (hne : c ≠ d) :
    colVals (binStep acc d) c = colVals acc c := by
  unfold binStep
  split
  · exact colVals_mapCol_other acc hne mapYesNo
  · rfl

theorem colVals_binStep_self (acc : Table) (c : String) :
    colVals (binStep acc c) c =
      if (isTextCol acc c && binarizable acc c) = true
      then (colVals acc c).map mapYesNo else colVals acc c := by
  unfold binStep
  split
  · exact colVals_mapCol_self acc c mapYesNo mapYesNo_missing
  · rfl

theorem foldl_binStep_cols (cs : List String) (acc : Table) :
    (cs.foldl binStep acc).cols = acc.cols := by
  induction cs generalizing acc with
  | nil => rfl
  | cons d cs ih => rw [List.foldl_cons, ih, binStep_cols]

theorem foldl_binStep_colVals :
    ∀ (cs : List String), cs.Nodup → ∀ (acc : Table) (c : String),
      colVals (cs.foldl binStep acc) c =
        if c ∈ cs ∧ (isTextCol acc c && binarizable acc c) = true
        then (colVals acc c).map mapYesNo
        else colVals acc c
  | [], _, acc, c => by simp
  | d :: cs, hnd, acc, c => by
    have hd : d ∉ cs := (List.nodup_cons.mp hnd).1
    have hcs : cs.Nodup := (List.nodup_cons.mp hnd).2
    rw [List.foldl_cons]
    by_cases hcd : c = d
    · subst hcd
      rw [foldl_binStep_colVals cs hcs (binStep acc c) c,
        if_neg (fun hc => hd hc.1), colVals_binStep_self]
      by_cases hq : (isTextCol acc c && binarizable acc c) = true
      · rw [if_pos hq, if_pos ⟨List.mem_cons_self c cs, hq⟩]
      · rw [if_neg hq, if_neg (fun hc => hq hc.2)]
    · have hcv : colVals (binStep acc d) c = colVals acc c :=
        colVals_binStep_other hcd
      rw [foldl_binStep_colVals cs hcs (binStep acc d) c, hcv,
        isTextCol_congr hcv, binarizable_congr hcv]
      by_cases hin : c ∈ cs
      · by_cases hq : (isTextCol acc c && binarizable acc c) = true
        · rw [if_pos ⟨hin, hq⟩, if_pos ⟨List.mem_cons_of_mem d hin, hq⟩]
        · rw [if_neg (fun hc => hq hc.2), if_neg (fun hc => hq hc.2)]
      · rw [if_neg (fun hc => hin hc.1),
          if_neg (fun hc => (List.mem_cons.mp hc.1).elim hcd hin)]

theorem num_df_cols (t : Table) : (num_df t).cols = t.cols :=
  foldl_binStep_cols t.cols t

theorem num_df_colVals (t : Table) (hnd : t.cols.Nodup) (c : String) :
    colVals (num_df t) c =
      if c ∈ t.cols ∧ (isTextCol t c && binarizable t c) = true
      then (colVals t c).map mapYesNo else colVals t c :=
  foldl_binStep_colVals t.cols hnd t c

theorem mem_of_colIdx {cols : List String} {c : String} {i : Nat}
    (h : colIdx cols c = some i) : c ∈ cols := by
  induction cols generalizing i with
  | nil => simp [colIdx] at h
  | cons d cs ih =>
    simp only [colIdx] at h
    by_cases hd : d = c
    · exact hd ▸ List.mem_cons_self d cs
    · rw [if_neg hd] at h
      cases hi : colIdx cs c with
      | none => rw [hi] at h; simp at h
      | some j => exact List.mem_cons_of_mem d (ih hi)

theorem mem_of_isTextCol {t : Table} {c : String} (h : isTextCol t c = true) :
    c ∈ t.cols := by
  simp only [isTextCol, colVals, List.any_eq_true] at h
  obtain ⟨v, hv, hstr⟩ := h
  simp only [List.mem_map] at hv
  obtain ⟨r, _, rfl⟩ := hv
  cases hidx : colIdx t.cols c with
  | some i => exact mem_of_colIdx hidx
  | none =>
    rw [getVal, hidx] at hstr
    simp at hstr

theorem any_str_map_mapYesNo (l : List Value) :
    ((l.map mapYesNo).any (fun v =>
      match v with
      | Value.str _ => true
      | _ => false)) = false := by
  induction l with
  | nil => rfl
  | cons v vs ih =>
    simp only [List.map_cons, List.any_cons, ih, Bool.or_false]
    unfold mapYesNo
    by_cases h1 : strLower (valueToStr v) = "yes"
    · rw [if_pos h1]
    · rw [if_neg h1]
      by_cases h2 : strLower (valueToStr v) = "no"
      · rw [if_pos h2]
      · rw [if_neg h2]

/-- C7: a text column is binarized if and only if the lower-cased texts of its
non-missing distinct values all lie in {"yes","no"}: a qualifying column's
cells are mapped by yes-to-1 / no-to-0 (everything else to missing) and the
column is kept by the numeric dtype selection feeding the correlation matrix;
a text column with any other value is left unchanged and is excluded from the
correlation matrix. -/
theorem c7_binarization_iff (t : Table) (c : String) (hnd : t.cols.Nodup)
    (htext : isTextCol t c = true) :
    (binarizable t c = true →
      colVals (num_df t) c = (colVals t c).map mapYesNo ∧ c ∈ corrCols (num_df t)) ∧
    (binarizable t c = false →
      colVals (num_df t) c = colVals t c ∧ c ∉ corrCols (num_df t)) := by
  have hmem : c ∈ t.cols := mem_of_isTextCol htext
  constructor
  · intro hb
    have hcv : colVals (num_df t) c = (colVals t c).map mapYesNo := by
      rw [num_df_colVals t hnd c, if_pos ⟨hmem, by rw [htext, hb]; rfl⟩]
    refine ⟨hcv, ?_⟩
    unfold corrCols
    rw [List.mem_filter]
    refine ⟨by rw [num_df_cols]; exact hmem, ?_⟩
    have hno : isTextCol (num_df t) c = false := by
      unfold isTextCol
      rw [hcv]
      exact any_str_map_mapYesNo _
    simp [hno]
  · intro hb
    have hcv : colVals (num_df t) c = colVals t c := by
      rw [num_df_colVals t hnd c,
        if_neg (fun hcond => by rw [hb] at hcond; simp at hcond)]
    refine ⟨hcv, ?_⟩
    unfold corrCols
    rw [List.mem_filter]
    intro hfil
    have he : isTextCol (num_df t) c = isTextCol t c := isTextCol_congr hcv
    rw [he, htext] at hfil
    simp at hfil

/-- Witness for C7: a pure Yes/No column is binarized and kept; a column with
the value "maybe" is left unchanged and excluded. -/
theorem c7_binarization_iff_witness :
    (colVals (num_df { cols := ["Churn", "extra"], rows := [[Value.str "Yes", Value.str "maybe"], [Value.str "No", Value.str "no"]] }) "Churn" =
      (colVals { cols := ["Churn", "extra"], rows := [[Value.str "Yes", Value.str "maybe"], [Value.str "No", Value.str "no"]] } "Churn").map mapYesNo ∧
      "Churn" ∈ corrCols (num_df { cols := ["Churn", "extra"], rows := [[Value.str "Yes", Value.str "maybe"], [Value.str "No", Value.str "no"]] })) ∧
    (colVals (num_df { cols := ["Churn", "extra"], rows := [[Value.str "Yes", Value.str "maybe"], [Value.str "No", Value.str "no"]] }) "extra" =
      colVals { cols := ["Churn", "extra"], rows := [[Value.str "Yes", Value.str "maybe"], [Value.str "No", Value.str "no"]] } "extra" ∧
      "extra" ∉ corrCols (num_df { cols := ["Churn", "extra"], rows := [[Value.str "Yes", Value.str "maybe"], [Value.str "No", Value.str "no"]] })) :=
  ⟨(c7_binarization_iff { cols := ["Churn", "extra"], rows := [[Value.str "Yes", Value.str "maybe"], [Value.str "No", Value.str "no"]] } "Churn" (by decide) (by decide)).1 (by decide),
   (c7_binarization_iff { cols := ["Churn", "extra"], rows := [[Value.str "Yes", Value.str "maybe"], [Value.str "No", Value.str "no"]] } "extra" (by decide) (by decide)).2 (by decide)⟩

theorem pairedVals_swap (t : Table) (a b : String) :
    pairedVals t b a = (pairedVals t a b).map Prod.swap := by
  unfold pairedVals
  rw [List.map_filterMap]
  refine List.filterMap_congr ?_
  intro r _
  cases getVal t.cols r a <;> cases getVal t.cols r b <;> rfl

theorem map_fst_swap (ps : List (ℚ × ℚ)) :
    (ps.map Prod.swap).map Prod.fst = ps.map Prod.snd := by
  rw [List.map_map]
  rfl

theorem map_snd_swap (ps : List (ℚ × ℚ)) :
    (ps.map Prod.swap).map Prod.snd = ps.map Prod.fst := by
  rw [List.map_map]
  rfl

theorem sxy_swap (ps : List (ℚ × ℚ)) : sxy (ps.map Prod.swap) = sxy ps := by
  unfold sxy
  rw [map_fst_swap, map_snd_swap, List.map_map]
  refine congrArg List.sum (List.map_congr_left ?_)
  intro p _
  show (p.2 - lmean (ps.map Prod.snd)) * (p.1 - lmean (ps.map Prod.fst)) = _
  ring

theorem pairedVals_diag_eq (t : Table) (a : String) :
    ∀ p ∈ pairedVals t a a, p.1 = p.2 := by
  intro p hp
  unfold pairedVals at hp
  simp only [List.mem_filterMap] at hp
  obtain ⟨r, _, hr⟩ := hp
  cases hv : getVal t.cols r a with
  | num x =>
    rw [hv] at hr
    cases hr
    rfl
  | str s => rw [hv] at hr; simp at hr
  | missing => rw [hv] at hr; simp at hr

theorem map_snd_diag (t : Table) (a : String) :
    (pairedVals t a a).map Prod.snd = (pairedVals t a a).map Prod.fst := by
  refine List.map_congr_left ?_
  intro p hp
  exact (pairedVals_diag_eq t a p hp).symm

theorem sxy_diag (t : Table) (a : String) :
    sxy (pairedVals t a a) = svar ((pairedVals t a a).map Prod.fst) := by
  unfold sxy svar
  rw [map_snd_diag, List.map_map]
  refine congrArg List.sum (List.map_congr_left ?_)
  intro p hp
  have hpp := pairedVals_diag_eq t a p hp
  show (p.1 - lmean _) * (p.2 - lmean _) = (p.1 - lmean _) ^ 2
  rw [← hpp]
  ring

theorem svar_nonneg (xs : List ℚ) : 0 ≤ svar xs := by
  unfold svar
  refine List.sum_nonneg ?_
  intro x hx
  simp only [List.mem_map] at hx
  obtain ⟨y, _, rfl⟩ := hx
  positivity

/-- Counterexample to C9's diagonal clause: a constant numeric column has
zero variance, so pandas correlation of the column with itself is NaN
(modelled `none`), not 1.0. -/
theorem c9_counterexample :
    corr { cols := ["x"], rows := [[Value.num 1], [Value.num 1]] } "x" "x" = none := by
  have hps : pairedVals { cols := ["x"], rows := [[Value.num 1], [Value.num 1]] } "x" "x" =
      [(1, 1), (1, 1)] := by decide
  have h0 : svar [(1 : ℚ), 1] = 0 := by
    simp [svar, lmean]
  have hm : ([((1 : ℚ), (1 : ℚ)), (1, 1)].map Prod.fst) = [1, 1] := rfl
  have hm2 : ([((1 : ℚ), (1 : ℚ)), (1, 1)].map Prod.snd) = [1, 1] := rfl
  simp only [corr, hps, hm, hm2, h0]
  norm_num

/-- C9 as amended: the pairwise correlation is symmetric for every table and
every pair of columns, and the diagonal entry of a column with itself is
exactly 1 whenever the column's pairwise-complete values have nonzero
variance (a zero-variance diagonal entry is NaN, i.e. `none`). -/
theorem c9_corr_symm_diag :
    (∀ (t : Table) (a b : String), corr t a b = corr t b a) ∧
    (∀ (t : Table) (a : String),
      svar ((pairedVals t a a).map Prod.fst) ≠ 0 → corr t a a = some 1) := by
  constructor
  · intro t a b
    simp only [corr, pairedVals_swap t a b, map_fst_swap, map_snd_swap, sxy_swap]
    rw [mul_comm (svar (List.map Prod.snd (pairedVals t a b)))
      (svar (List.map Prod.fst (pairedVals t a b)))]
  · intro t a h
    have hsnd := map_snd_diag t a
    have hpos : 0 < svar ((pairedVals t a a).map Prod.fst) :=
      lt_of_le_of_ne (svar_nonneg _) (Ne.symm h)
    simp only [corr, hsnd, sxy_diag]
    rw [if_neg (by
      intro hz
      exact h (by
        have := mul_self_eq_zero.mp hz
        exact this))]
    congr 1
    have hc : (((svar ((pairedVals t a a).map Prod.fst) *
        svar ((pairedVals t a a).map Prod.fst) : ℚ)) : ℝ) =
        ((svar ((pairedVals t a a).map Prod.fst) : ℝ) *
         (svar ((pairedVals t a a).map Prod.fst) : ℝ)) := by push_cast; ring
    rw [hc, Real.sqrt_mul_self (by exact_mod_cast le_of_lt hpos)]
    rw [div_self (by exact_mod_cast ne_of_gt hpos)]

/-- Witness for C9 at a two-point column with values 0 and 1: the variance is
1/2 ≠ 0, so the diagonal correlation is 1; symmetry holds for the pair
("x", "y"). -/
theorem c9_corr_symm_diag_witness :
    corr { cols := ["x", "y"], rows := [[Value.num 0, Value.num 1], [Value.num 1, Value.num 0]] } "x" "x" = some 1 ∧
    corr { cols := ["x", "y"], rows := [[Value.num 0, Value.num 1], [Value.num 1, Value.num 0]] } "x" "y" =
      corr { cols := ["x", "y"], rows := [[Value.num 0, Value.num 1], [Value.num 1, Value.num 0]] } "y" "x" := by
  constructor
  · refine c9_corr_symm_diag.2
      { cols := ["x", "y"], rows := [[Value.num 0, Value.num 1], [Value.num 1, Value.num 0]] }
      "x" ?_
    have hps : pairedVals
        { cols := ["x", "y"], rows := [[Value.num 0, Value.num 1], [Value.num 1, Value.num 0]] }
        "x" "x" = [(0, 0), (1, 1)] := by decide
    rw [hps]
    have hm : ([((0 : ℚ), (0 : ℚ)), (1, 1)].map Prod.fst) = [0, 1] := rfl
    rw [hm]
    simp [svar, lmean]
    norm_num
  · exact c9_corr_symm_diag.1
      { cols := ["x", "y"], rows := [[Value.num 0, Value.num 1], [Value.num 1, Value.num 0]] }
      "x" "y"
